import Mathlib

/-!
# Verification of the riana peptide-filtering pipeline (`riana/peptides.py`)

A shallow embedding of the identification-filtering and match-across-runs
(MAR) core of `ReadPercolator` in `riana/peptides.py`, together with proofs
about it.

Modelling conventions:
* A pandas `DataFrame` of PSM rows is a `List Psm` (one record per row).
  Only the columns that participate in the filtering and matching logic are
  carried (`sequence`, `charge`, `scan`, `file_idx`, `sample`,
  `percolator q-value`, `protein id`, `spectrum precursor m/z`,
  `peptide mass`, `concat`); the remaining Percolator columns
  (`percolator score`, `percolator PEP`, `spectrum neutral mass`,
  `distinct matches/spectrum`, `flanking aa`) are never read by any code
  path modelled here and are omitted.
* Python floats are modelled as `Rat` (all values handled by this code are
  decimal; no NaN-valued q-value columns occur in Percolator output).
* Scan numbers are integers in Percolator output, modelled as `Int`.
* `DataFrame.sort_values` on one column uses the pandas default sort kind
  `'quicksort'` (numpy introsort), which is deterministic but not stable:
  its contract fixes only a permutation of the frame ordered by the
  column.  The per-fraction resolver therefore takes the q-value sort as
  a parameter constrained to exactly that contract
  (`get_current_fraction_psms_with`); elsewhere — and in the
  non-parametric instantiation — the sort is taken as a stable insertion
  sort (`List.insertionSort`), and every property proved from those
  instantiations is independent of the tie order among equal sort keys.
* Raised Python exceptions (`KeyError` on integer lookup into an empty
  frame, `AssertionError`, sklearn `ValueError`) are modelled with
  `Except String`.
* The sklearn `BaggingRegressor(DecisionTreeRegressor(max_depth=5),
  n_estimators=25, random_state=RandomState(1))` is deterministic given its
  training set (the seed is re-created for every fit), so fitting followed
  by prediction is abstracted as a parameter
  `fitModel : List (Int × Int) → Int → Rat` mapping a training set of
  (peer scan, current-sample scan) pairs to a prediction function.
  `fit` and `predict` raise `ValueError` on empty inputs
  (sklearn `check_array` requires at least one sample); those checks are
  kept explicitly in the embedding.
-/

deriving instance DecidableEq for Except

namespace Riana

set_option maxRecDepth 8000

/-- One Percolator PSM row, as read by `read_all_project_psms`.
`concat` is the `sequence_charge` key column stamped at load time
(line 85: `id_df['sequence'].map(str) + '_' + id_df['charge'].map(str)`). -/
structure Psm where
  sequence : String
  charge : Int
  scan : Int
  file_idx : Int
  sample : String
  qvalue : Rat
  protein_id : String
  precursor_mz : Rat
  peptide_mass : Rat
  concat : String
deriving DecidableEq

/-- The key column as computed at load time (line 85). -/
def mkConcat (sequence : String) (charge : Int) : String :=
  sequence ++ "_" ++ toString charge

/-- Comparator for `sort_values('percolator q-value')`. -/
def qvalueLE (a b : Psm) : Prop := a.qvalue ≤ b.qvalue

instance : DecidableRel qvalueLE := fun a b =>
  inferInstanceAs (Decidable (a.qvalue ≤ b.qvalue))

instance : IsTotal Psm qvalueLE := ⟨fun a b => le_total a.qvalue b.qvalue⟩

instance : IsTrans Psm qvalueLE := ⟨fun _ _ _ => le_trans⟩

/-- Comparator for `sort_values(by='scan')`. -/
def scanLE (a b : Psm) : Prop := a.scan ≤ b.scan

instance : DecidableRel scanLE := fun a b =>
  inferInstanceAs (Decidable (a.scan ≤ b.scan))

instance : IsTotal Psm scanLE := ⟨fun a b => le_total a.scan b.scan⟩

instance : IsTrans Psm scanLE := ⟨fun _ _ _ => le_trans⟩

/-- Comparator for `compare_df.sort_values(by=['scan_x'])` on
(scan_x, scan_y) training pairs. -/
def fstLE (a b : Int × Int) : Prop := a.1 ≤ b.1

instance : DecidableRel fstLE := fun a b =>
  inferInstanceAs (Decidable (a.1 ≤ b.1))

instance : IsTotal (Int × Int) fstLE := ⟨fun a b => le_total a.1 b.1⟩

instance : IsTrans (Int × Int) fstLE := ⟨fun _ _ _ => le_trans⟩

/-- Embedding of `drop_duplicates(subset=['concat'])`: keep the first row for each key,
in frame order.  `seen` accumulates the keys already emitted. -/
def dropDuplicatesBy (key : α → String) : List α → List String → List α
  | [], _ => []
  | r :: rs, seen =>
    if key r ∈ seen then dropDuplicatesBy key rs seen
    else r :: dropDuplicatesBy key rs (key r :: seen)

/-- Embedding of `Series.median()` as pandas computes it: sort, take the middle element
for odd length, the mean of the two middle elements for even length.
(pandas returns NaN on an empty series; every group this is applied to is
nonempty, and the 0 default is never used in such cases.) -/
def listMedian (l : List Rat) : Rat :=
  let s := l.insertionSort (· ≤ ·)
  if s.length % 2 = 1 then s.getD (s.length / 2) 0
  else if s.length = 0 then 0
  else (s.getD (s.length / 2 - 1) 0 + s.getD (s.length / 2) 0) / 2

/-- Embedding of `numpy.ndarray.astype(np.int)` (line 376): truncation toward zero. -/
def npAstypeInt (x : Rat) : Int := if 0 ≤ x then ⌊x⌋ else ⌈x⌉

/-- Number of `','` characters in a string;
`df['protein id'].str.count(',')` (line 415). -/
def countCommas (s : String) : Nat :=
  (s.toList.filter (fun c => decide (c = ','))).length

/-- Number of accessions in a comma-delimited `protein id` field: a
comma-delimited field always holds one more entry than it has commas. -/
def numAccessions (s : String) : Nat := countCommas s + 1

/-- A pandas frame over row type `α`: the rows plus whether the
`percolator q-value` column exists (absence raises `KeyError`, caught at
lines 397-401). -/
structure DF (α : Type) where
  rows : List α
  hasQCol : Bool

/-- Embedding of `ReadPercolator.filter_df_by_args` (lines 383-417).  `qval` and `prot`
are the column projections of the (duck-typed) frame: the same code runs on
frames with and without the `pep_id` column.  Retains rows with
`percolator q-value < peptide_q` when that column exists (a missing column
raises `KeyError`, which is caught: the frame passes through), and, when
`unique_only`, rows whose `protein id` holds no comma (line 415). -/
def filter_df_by_args (qval : α → Rat) (prot : α → String)
    (df : DF α) (peptide_q : Rat) (unique_only : Bool) : DF α :=
  let d1 := if df.hasQCol then
      { df with rows := df.rows.filter (fun r => decide (qval r < peptide_q)) }
    else df
  if unique_only then
    { d1 with rows := d1.rows.filter (fun r => decide (countCommas (prot r) = 0)) }
  else d1

/-- One row of `match_across_runs_master` after the `groupby('concat')`
aggregation of `make_master_match_list` (lines 124-136).  `file_idx` is
kept as a rational: `pd.to_numeric(..., downcast='integer')` (line 135)
never changes the numeric value — it only downcasts the dtype, and only
when every value is already integral. -/
structure MasterRow where
  concat : String
  num_samples : Nat
  file_idx : Rat
  precursor_mz : Rat
  peptide_mass : Rat
deriving DecidableEq

/-- The group of filtered rows sharing one `concat` key. -/
def groupRows (filtered : List Psm) (k : String) : List Psm :=
  filtered.filter (fun r => decide (r.concat = k))

/-- The `.agg({'sample': 'nunique', 'file_idx': 'median', ...})` row for
one key (lines 124-129). -/
def masterAggRow (filtered : List Psm) (k : String) : MasterRow :=
  let g := groupRows filtered k
  { concat := k
    num_samples := (g.map Psm.sample).dedup.length
    file_idx := listMedian (g.map (fun r => (r.file_idx : Rat)))
    precursor_mz := listMedian (g.map Psm.precursor_mz)
    peptide_mass := listMedian (g.map Psm.peptide_mass) }

/-- The group keys of `groupby('concat')`; pandas sorts group keys. -/
def masterKeys (filtered : List Psm) : List String :=
  ((filtered.map Psm.concat).dedup).insertionSort (· ≤ ·)

/-- Embedding of `ReadPercolator.make_master_match_list` (lines 98-142).
`numProjectSamples` is `len(self.samples)`, the number of samples in the
project.  Raises if the master PSM frame has not been read
(lines 113-115); otherwise filters all PSMs, aggregates per `concat` key,
and keeps keys found in at least `min_fraction * numProjectSamples`
distinct samples (lines 138-140). -/
def make_master_match_list (master_id_df : List Psm) (numProjectSamples : Nat)
    (peptide_q : Rat) (unique_only : Bool) (min_fraction : Rat) :
    Except String (List MasterRow) :=
  if master_id_df.isEmpty then
    .error "Peptide ID list has not been read yet"
  else
    let filtered := (filter_df_by_args Psm.qvalue Psm.protein_id
      ⟨master_id_df, true⟩ peptide_q unique_only).rows
    let agg := (masterKeys filtered).map (masterAggRow filtered)
    .ok (agg.filter (fun m =>
      decide ((m.num_samples : Rat) ≥ (numProjectSamples : Rat) * min_fraction)))

/-- A fraction PSM row after `get_current_fraction_psms`: the original row
plus the `pep_id` column (line 188). -/
structure FracPsm where
  psm : Psm
  pep_id : Nat
deriving DecidableEq

/-- Embedding of `assign(pep_id=self.curr_frac_id_df.index)` after `reset_index`
(lines 185-188): consecutive positional identifiers starting at `n`. -/
def assignPepId : List Psm → Nat → List FracPsm
  | [], _ => []
  | r :: rs, n => ⟨r, n⟩ :: assignPepId rs (n + 1)

/-- Embedding of `ReadPercolator.get_current_fraction_psms`
(lines 167-190), parametrized by the q-value sort that
`sort_values('percolator q-value')` performs.  pandas' default sort kind
(`'quicksort'`, numpy introsort) is deterministic but not stable, so its
contract fixes only that the result is a permutation of the frame ordered
by q-value; the tie order among equal q-values is left to the `qsort`
parameter.  Asserts the fraction index occurs in the current sample,
restricts to that fraction, sorts by q-value and keeps the first row per
`concat` key, then re-sorts by scan and assigns positional `pep_id`s. -/
def get_current_fraction_psms_with (qsort : List Psm → List Psm)
    (curr_sample_id_df : List Psm) (idx : Int) :
    Except String (List FracPsm) :=
  if (curr_sample_id_df.map Psm.file_idx).contains idx then
    let frac := curr_sample_id_df.filter (fun r => decide (r.file_idx = idx))
    let deduped := dropDuplicatesBy Psm.concat (qsort frac) []
    let byScan := deduped.insertionSort scanLE
    .ok (assignPepId byScan 0)
  else .error "AssertionError: fraction index not in current sample"

/-- The resolver with the q-value sort instantiated as a stable insertion
sort.  This fixes one definite tie order among the deterministic
q-ordered permutations the unstable pandas default may produce; every
property proved from this instantiation is independent of that choice
(the tie-sensitive deduplication property is settled against
`get_current_fraction_psms_with` instead). -/
def get_current_fraction_psms (curr_sample_id_df : List Psm) (idx : Int) :
    Except String (List FracPsm) :=
  get_current_fraction_psms_with (fun l => l.insertionSort qvalueLE)
    curr_sample_id_df idx

/-- The `pep_id` column of the filtered output: positional integers for
identified rows, `'matched_' + str(i)` strings for synthesized MAR rows
(line 371). -/
inductive PepId where
  | num (n : Nat)
  | matched (n : Nat)
deriving DecidableEq

/-- One row of `curr_frac_filtered_id_df`: a PSM row plus its `pep_id` and
`evidence` columns. -/
structure OutRow where
  psm : Psm
  pep_id : PepId
  evidence : String
deriving DecidableEq

/-- Lines 220-226: the strict q-value filter over the fraction frame,
rows labelled `evidence = 'q_value'`. -/
def strictPart (curr_frac_id_df : List FracPsm) (peptide_q : Rat)
    (unique_only : Bool) : List OutRow :=
  ((filter_df_by_args (fun r => r.psm.qvalue) (fun r => r.psm.protein_id)
      ⟨curr_frac_id_df, true⟩ peptide_q unique_only).rows).map
    (fun r => { psm := r.psm, pep_id := .num r.pep_id, evidence := "q_value" })

/-- Lines 245-264: the soft-threshold rescue.  Rows of the unfiltered
fraction frame with `peptide_q <= q < soft_threshold_q`, inner-joined on
`concat` against the fraction-restricted master candidates, labelled
`evidence = 'soft'`.  The join emits one row per matching candidate row
(left frame order, then right frame order), exactly as `DataFrame.merge`
with `how='inner'`. -/
def softPart (curr_frac_id_df : List FracPsm) (match_candidates : List MasterRow)
    (peptide_q soft_threshold_q : Rat) (use_soft_threshold : Bool) : List OutRow :=
  if use_soft_threshold then
    let band := (curr_frac_id_df.filter
        (fun r => decide (peptide_q ≤ r.psm.qvalue))).filter
      (fun r => decide (r.psm.qvalue < soft_threshold_q))
    (band.flatMap (fun r =>
        (match_candidates.filter (fun m => decide (m.concat = r.psm.concat))).map
          (fun _ => r))).map
      (fun r => { psm := r.psm, pep_id := .num r.pep_id, evidence := "soft" })
  else []

/-- Lines 288-349 for one peer sample: the peer's confident set for this
fraction, the regression training pairs against the current filtered
frame, the fit, and the predicted scan for each MAR candidate found in the
peer (`none` where the left join leaves NaN).  `regr.fit` on an empty
training set and `regr.predict` on an empty prediction set both raise
`ValueError` in sklearn. -/
def marPeer (master_id_df : List Psm) (idx : Int) (peptide_q : Rat)
    (unique_only : Bool) (curr_filtered : List OutRow)
    (mar_candidates : List String) (fitModel : List (Int × Int) → Int → Rat)
    (each_sample : String) : Except String (List (Option Rat)) :=
  let other0 := master_id_df.filter
    (fun r => decide (r.sample = each_sample) && decide (r.file_idx = idx))
  let other1 := dropDuplicatesBy Psm.concat (other0.insertionSort qvalueLE) []
  let other2 := (filter_df_by_args Psm.qvalue Psm.protein_id
    ⟨other1, true⟩ peptide_q unique_only).rows
  let compare0 := other2.flatMap (fun o =>
    (curr_filtered.filter (fun c => decide (c.psm.concat = o.concat))).map
      (fun c => (o.scan, c.psm.scan)))
  let compare1 := compare0.insertionSort fstLE
  if compare1.isEmpty then
    .error ("ValueError: regr.fit with 0 samples for " ++ each_sample)
  else
    let model := fitModel compare1
    let found := mar_candidates.map
      (fun b => (other2.find? (fun o => decide (o.concat = b))).map Psm.scan)
    if (found.filterMap id).isEmpty then
      .error ("ValueError: regr.predict with 0 samples for " ++ each_sample)
    else .ok (found.map (fun os => os.map (fun s => model s)))

/-- Python `str.split('_')`, on the character list of the key. -/
def splitUnderscore (cs : List Char) : List (List Char) :=
  match cs with
  | [] => [[]]
  | c :: rest =>
    let tail := splitUnderscore rest
    if c = '_' then [] :: tail
    else match tail with
      | [] => [[c]]
      | t :: ts => (c :: t) :: ts

/-- Embedding of `str(b.split('_')[0])` (line 366). -/
def keySequence (b : String) : String :=
  ⟨((splitUnderscore b.toList).headD [])⟩

/-- Embedding of `int(b.split('_')[1])` (line 357); `int()` raising on a malformed key
is not exercised by any property here, so the parse failure defaults
to 0. -/
def keyCharge (b : String) : Int :=
  (String.toInt? ⟨(splitUnderscore b.toList).getD 1 []⟩).getD 0

/-- Lines 351-376: drop MAR candidates with no prediction from any peer
(`dropna(axis=0, how='all')`), take the per-candidate median of the
per-peer predictions (`pred_df.median(axis=1)` skips NaN), truncate the
median to an integer (`astype(np.int)`, line 376), and synthesize one
output row per surviving candidate with the sentinel confidence values of
lines 354-373.  `columns` holds one prediction column per peer sample,
each aligned with `mar_candidates`. -/
def marSynthesize (match_candidates : List MasterRow)
    (mar_candidates : List String) (columns : List (List (Option Rat)))
    (first_file_idx : Int) (current_sample : String) : List OutRow :=
  let preds := mar_candidates.enum.map (fun p =>
    (p.2, columns.filterMap (fun col => col.getD p.1 none)))
  let surviving := preds.filter (fun p => !p.2.isEmpty)
  surviving.enum.map (fun q =>
    { psm :=
        { sequence := keySequence q.2.1
          charge := keyCharge q.2.1
          scan := npAstypeInt (listMedian q.2.2)
          file_idx := first_file_idx
          sample := current_sample
          qvalue := 0
          protein_id := "NA"
          precursor_mz :=
            ((match_candidates.find? (fun m => decide (m.concat = q.2.1))).map
              MasterRow.precursor_mz).getD 0
          peptide_mass :=
            ((match_candidates.find? (fun m => decide (m.concat = q.2.1))).map
              MasterRow.peptide_mass).getD 0
          concat := q.2.1 }
      pep_id := .matched q.1
      evidence := "match_across_runs" })

/-- Line 270: the MAR candidates are the fraction-restricted master keys
absent from the filtered frame. -/
def marCandidates (match_candidates : List MasterRow)
    (filtered2 : List OutRow) : List String :=
  (match_candidates.map MasterRow.concat).filter
    (fun p => !((filtered2.map (fun r => r.psm.concat)).contains p))

/-- Lines 266-379: the match-across-runs branch.
`curr_frac_filtered_id_df['sample'][0]` (line 279) raises `KeyError` on an
empty filtered frame.  Peer samples are the distinct samples of the master
frame other than the current one (`set` iteration order is unspecified in
Python; the per-peer prediction columns are aggregated by a median, which
does not depend on that order).  Line 355 reads `file_idx` from the first
filtered row. -/
def marStep (master_id_df : List Psm) (match_candidates : List MasterRow)
    (filtered2 : List OutRow) (idx : Int) (peptide_q : Rat)
    (unique_only : Bool) (fitModel : List (Int × Int) → Int → Rat) :
    Except String (List OutRow) :=
  match filtered2 with
  | [] => .error "KeyError: 0"
  | cr0 :: _ =>
    ((((master_id_df.map Psm.sample).dedup).filter
        (fun s => !(decide (s = cr0.psm.sample)))).mapM
      (marPeer master_id_df idx peptide_q unique_only filtered2
        (marCandidates match_candidates filtered2) fitModel)).map
      (fun columns => marSynthesize match_candidates
        (marCandidates match_candidates filtered2) columns
        cr0.psm.file_idx cr0.psm.sample)

/-- Body of `filter_current_fraction_psms` once the first fraction row
`r0` has been read (line 235 reads `idx` from it; line 236 asserts it
occurs in the current sample; line 238 restricts the master list to this
fraction; the soft-threshold rescue rows are appended when enabled, and
the synthesized MAR rows when enabled). -/
def matchCandidatesAt (match_across_runs_master : List MasterRow)
    (idx : Int) : List MasterRow :=
  match_across_runs_master.filter (fun m => decide (m.file_idx = (idx : Rat)))

/-- Lines 220-264: the filtered frame before the MAR branch — the strict
rows followed by the soft-rescue rows (computed once at lines 238 and
245-264; written here once per use site, with the same value). -/
def filteredBeforeMar (curr_frac_id_df : List FracPsm)
    (match_across_runs_master : List MasterRow) (idx : Int)
    (peptide_q soft_threshold_q : Rat) (unique_only use_soft_threshold : Bool) :
    List OutRow :=
  strictPart curr_frac_id_df peptide_q unique_only ++
    softPart curr_frac_id_df (matchCandidatesAt match_across_runs_master idx)
      peptide_q soft_threshold_q use_soft_threshold

def filterCurrentBody (r0 : FracPsm) (curr_frac_id_df : List FracPsm)
    (curr_sample_id_df : List Psm) (master_id_df : List Psm)
    (match_across_runs_master : List MasterRow) (soft_threshold_q : Rat)
    (fitModel : List (Int × Int) → Int → Rat) (peptide_q : Rat)
    (unique_only : Bool) (use_soft_threshold : Bool)
    (match_across_runs : Bool) : Except String (List OutRow) :=
  if (curr_sample_id_df.map Psm.file_idx).contains r0.psm.file_idx then
    if match_across_runs then
      (marStep master_id_df
        (matchCandidatesAt match_across_runs_master r0.psm.file_idx)
        (filteredBeforeMar curr_frac_id_df match_across_runs_master
          r0.psm.file_idx peptide_q soft_threshold_q unique_only
          use_soft_threshold)
        r0.psm.file_idx peptide_q unique_only fitModel).map
        (fun marRows =>
          filteredBeforeMar curr_frac_id_df match_across_runs_master
            r0.psm.file_idx peptide_q soft_threshold_q unique_only
            use_soft_threshold ++ marRows)
    else
      .ok (filteredBeforeMar curr_frac_id_df match_across_runs_master
        r0.psm.file_idx peptide_q soft_threshold_q unique_only
        use_soft_threshold)
  else .error "AssertionError: fraction index not in current sample"

/-- Embedding of `ReadPercolator.filter_current_fraction_psms`
(lines 192-381).  `soft_threshold_q` is `params.soft_threshold_q`, a
process-wide constant configured outside this module (`riana/params.py`),
taken here as a parameter.  Applies the strict filter (lines 220-226),
reads the fraction index from the first row of the fraction frame
(line 235, `KeyError` on an empty frame), and continues with
`filterCurrentBody`. -/
def filter_current_fraction_psms (curr_frac_id_df : List FracPsm)
    (curr_sample_id_df : List Psm) (master_id_df : List Psm)
    (match_across_runs_master : List MasterRow) (soft_threshold_q : Rat)
    (fitModel : List (Int × Int) → Int → Rat) (peptide_q : Rat)
    (unique_only : Bool) (use_soft_threshold : Bool)
    (match_across_runs : Bool) : Except String (List OutRow) :=
  match curr_frac_id_df with
  | [] => .error "KeyError: 0"
  | r0 :: _ =>
    filterCurrentBody r0 curr_frac_id_df curr_sample_id_df master_id_df
      match_across_runs_master soft_threshold_q fitModel peptide_q
      unique_only use_soft_threshold match_across_runs

/-! ## Concrete scenarios

Small concrete frames used to instantiate the theorems below.  All rows
share `precursor_mz = 500` and `peptide_mass = 1000` unless synthesized. -/

/-- Helper to build a concrete PSM row (the `concat` column is stamped
exactly as at load time). -/
def testRow (seq : String) (ch : Int) (scan fidx : Int) (smp : String)
    (q : Rat) (prot : String) : Psm :=
  { sequence := seq, charge := ch, scan := scan, file_idx := fidx,
    sample := smp, qvalue := q, protein_id := prot, precursor_mz := 500,
    peptide_mass := 1000, concat := mkConcat seq ch }

/-- A trivial regressor stand-in for scenarios whose regression output is
never used. -/
def zeroFit : List (Int × Int) → Int → Rat := fun _ _ => 0

/-- A master-candidate row for key `PEPTIDE_2` at fraction 0. -/
def mcPeptide2 : MasterRow :=
  { concat := "PEPTIDE_2", num_samples := 2, file_idx := 0,
    precursor_mz := 450, peptide_mass := 900 }

/- Scenario for the MAR aggregation (claim C1): current sample `A` has one
confident row `PEPA_2`; peers `B` and `C` both share it and both
confidently identify `PEPTIDE_2`, which is missing from `A`. -/

def c1_p1 : Psm := testRow "PEPA" 2 50 0 "A" (mkRat 1 1000) "P1"

def c1_master : List Psm :=
  [c1_p1,
   testRow "PEPA" 2 60 0 "B" (mkRat 1 1000) "P1",
   testRow "PEPTIDE" 2 70 0 "B" (mkRat 1 1000) "P1",
   testRow "PEPA" 2 55 0 "C" (mkRat 1 1000) "P1",
   testRow "PEPTIDE" 2 72 0 "C" (mkRat 1 1000) "P1"]

/-- A regressor behaviour consistent with tree-ensemble prediction on this
scenario: peer scan 70 predicts 100, peer scan 72 predicts 103.5 (tree
predictions are means of training targets and are routinely fractional). -/
def c1_fit : List (Int × Int) → Int → Rat := fun _ s =>
  if s = 70 then 100 else if s = 72 then mkRat 207 2 else 0

def c1_out_strict : OutRow :=
  { psm := c1_p1, pep_id := .num 0, evidence := "q_value" }

def c1_out_mar : OutRow :=
  { psm := { sequence := "PEPTIDE", charge := 2, scan := 101, file_idx := 0,
             sample := "A", qvalue := 0, protein_id := "NA",
             precursor_mz := 450, peptide_mass := 900,
             concat := "PEPTIDE_2" },
    pep_id := .matched 0, evidence := "match_across_runs" }

/- Scenario for a peer with zero overlapping training keys (claim C2):
peer `B` confidently identifies only `PEPTIDE_2`, which the current
filtered frame does not contain. -/

def c2_p1 : Psm := testRow "PEPA" 2 50 0 "A" (mkRat 1 1000) "P1"

def c2_master : List Psm :=
  [c2_p1, testRow "PEPTIDE" 2 70 0 "B" (mkRat 1 1000) "P1"]

/- Scenario for the soft-threshold band (claims C3 and C10): one fraction
row with q-value 0.02, above the strict cutoff 0.01 and below the soft
cutoff 0.05, whose key is a master candidate for fraction 0. -/

def c3_fr1 : Psm := testRow "PEPTIDE" 2 30 0 "A" (mkRat 2 100) "P1"

def c3_out_soft : OutRow :=
  { psm := c3_fr1, pep_id := .num 0, evidence := "soft" }

/- Scenario for deduplication (claim C4): two rows share key `PEPA_2` with
tied q-values (the first in frame order must survive) and a third key has
a lower q-value. -/

def c4_ra : Psm := testRow "PEPA" 2 9 0 "A" (mkRat 5 1000) "P1"

def c4_rb : Psm := testRow "PEPA" 2 3 0 "A" (mkRat 5 1000) "P2"

def c4_rc : Psm := testRow "PEPB" 3 7 0 "A" (mkRat 1 1000) "P3"

def c4_rows : List Psm := [c4_ra, c4_rb, c4_rc]

def c4_out : List FracPsm := [⟨c4_rc, 0⟩, ⟨c4_ra, 1⟩]

/-- A q-value ordering of the two tied `PEPA_2` rows with the opposite
tie order: on the frame `[c4_ra, c4_rb]` it returns the permutation
`[c4_rb, c4_ra]` — ordered by q-value, since the two q-values are equal —
and it sorts any other frame stably.  pandas' default sort kind
(`'quicksort'`, numpy introsort) is deterministic but unstable, so its
contract guarantees no more than such a function does. -/
def c4_swapSort : List Psm → List Psm := fun l =>
  if l = [c4_ra, c4_rb] then [c4_rb, c4_ra]
  else l.insertionSort qvalueLE

/- Scenario for the ordering invariant (claim C5): two distinct keys with
the same scan number. -/

def c5_rd : Psm := testRow "PEPA" 2 5 0 "A" (mkRat 1 1000) "P1"

def c5_re : Psm := testRow "PEPB" 2 5 0 "A" (mkRat 2 1000) "P2"

def c5_out : List FracPsm := [⟨c5_rd, 0⟩, ⟨c5_re, 1⟩]

/- Scenario for the master-candidate aggregation (claim C7): the same key
confidently seen in two samples at fraction indices 1 and 2, so the group
median fraction index is 3/2. -/

def c7_rows : List Psm :=
  [testRow "PEPTIDE" 2 10 1 "S1" (mkRat 1 1000) "P1",
   testRow "PEPTIDE" 2 11 2 "S2" (mkRat 1 1000) "P1"]

/- Scenario for quorum monotonicity (claim C8): key `AAA_2` is seen in two
samples, key `BBB_2` in one; quorums 1/4 and 3/4 of two samples. -/

def c8_rows : List Psm :=
  [testRow "AAA" 2 10 0 "S1" (mkRat 1 1000) "P1",
   testRow "AAA" 2 12 0 "S2" (mkRat 1 1000) "P1",
   testRow "BBB" 2 14 0 "S1" (mkRat 1 1000) "P2"]

def c8_out1 : List MasterRow :=
  [{ concat := "AAA_2", num_samples := 2, file_idx := 0,
     precursor_mz := 500, peptide_mass := 1000 },
   { concat := "BBB_2", num_samples := 1, file_idx := 0,
     precursor_mz := 500, peptide_mass := 1000 }]

def c8_out2 : List MasterRow :=
  [{ concat := "AAA_2", num_samples := 2, file_idx := 0,
     precursor_mz := 500, peptide_mass := 1000 }]

/- Scenario for deduplication before uniqueness (claim C9): the
lowest-q-value PSM for key `PEPA_2` maps to two proteins while a worse
PSM with the same key is proteotypic; key `PEPB_2` is proteotypic. -/

def c9_w1 : Psm := testRow "PEPA" 2 5 0 "A" (mkRat 1 1000) "P1,P2"

def c9_w2 : Psm := testRow "PEPA" 2 6 0 "A" (mkRat 5 1000) "P1"

def c9_w3 : Psm := testRow "PEPB" 2 7 0 "A" (mkRat 1 1000) "P3"

def c9_rows : List Psm := [c9_w1, c9_w2, c9_w3]

def c9_frac : List FracPsm := [⟨c9_w1, 0⟩, ⟨c9_w3, 1⟩]

def c9_row : OutRow :=
  { psm := c9_w3, pep_id := .num 1, evidence := "q_value" }

def c9_out : List OutRow := [c9_row]

/-! ## Generic lemmas about searching, stable sorting and deduplication -/

/-- The first match of a predicate is the head of the filtered list. -/
theorem find?_eq_head?_filter (p : α → Bool) (l : List α) :
    l.find? p = (l.filter p).head? := by
  induction l with
  | nil => rfl
  | cons a t ih =>
    by_cases h : p a
    · rw [List.find?_cons_of_pos _ h, List.filter_cons, if_pos h]
      rfl
    · rw [List.find?_cons_of_neg _ h, List.filter_cons, if_neg h, ih]

/-- Lists find the same first match for predicates that agree on their
elements. -/
theorem find?_congr_mem {p q : α → Bool} (l : List α)
    (h : ∀ x ∈ l, p x = q x) : l.find? p = l.find? q := by
  induction l with
  | nil => rfl
  | cons a t ih =>
    have ha := h a (List.mem_cons_self a t)
    by_cases hq : q a
    · rw [List.find?_cons_of_pos _ (ha ▸ hq), List.find?_cons_of_pos _ hq]
    · rw [List.find?_cons_of_neg _ (fun hp => hq (ha ▸ hp)),
        List.find?_cons_of_neg _ hq]
      exact ih (fun x hx => h x (List.mem_cons_of_mem a hx))

/-- In a pairwise-related list, the first match of a predicate is related
to every later match: the `find?` result either is the matching element
or stands in the relation to it. -/
theorem find?_rel_of_mem {R : α → α → Prop} {p : α → Bool} {l : List α}
    {s y : α} (hpair : List.Pairwise R l) (hf : l.find? p = some s)
    (hy : y ∈ l) (hpy : p y = true) : s = y ∨ R s y := by
  induction l with
  | nil => exact absurd hy (List.not_mem_nil y)
  | cons a t ih =>
    rcases List.pairwise_cons.mp hpair with ⟨ha, ht⟩
    by_cases hpa : p a = true
    · rw [List.find?_cons_of_pos _ hpa] at hf
      have hsa : s = a := (Option.some.inj hf).symm
      subst hsa
      rcases List.mem_cons.mp hy with h1 | h2
      · exact Or.inl h1.symm
      · exact Or.inr (ha y h2)
    · rw [List.find?_cons_of_neg _ hpa] at hf
      rcases List.mem_cons.mp hy with h1 | h2
      · rw [h1] at hpy
        exact absurd hpy hpa
      · exact ih ht hf h2

/-- Inserting an element that is below the whole list puts it in front. -/
theorem orderedInsert_eq_cons {r : α → α → Prop} [DecidableRel r] (a : α)
    (s : List α) (h : ∀ c ∈ s, r a c) : s.orderedInsert r a = a :: s := by
  cases s with
  | nil => rfl
  | cons b t => simp [List.orderedInsert, h b (List.mem_cons_self b t)]

/-- Filtering commutes with ordered insertion into a sorted list. -/
theorem filter_orderedInsert {r : α → α → Prop} [DecidableRel r]
    [IsTotal α r] [IsTrans α r] (p : α → Bool) (a : α) (l : List α)
    (hl : l.Sorted r) :
    (l.orderedInsert r a).filter p =
      if p a then (l.filter p).orderedInsert r a else l.filter p := by
  induction l with
  | nil =>
    by_cases h : p a <;> simp [List.orderedInsert, List.filter_cons, h]
  | cons b t ih =>
    have hbt : ∀ c ∈ t, r b c := List.rel_of_sorted_cons hl
    by_cases hab : r a b
    · rw [List.orderedInsert, if_pos hab]
      by_cases hpa : p a
      · rw [if_pos hpa, List.filter_cons, if_pos hpa, orderedInsert_eq_cons]
        intro c hc
        rcases List.mem_cons.mp (List.mem_of_mem_filter hc) with h1 | h2
        · exact h1 ▸ hab
        · exact Trans.trans hab (hbt c h2)
      · rw [if_neg hpa, List.filter_cons, if_neg hpa]
    · rw [List.orderedInsert, if_neg hab, List.filter_cons]
      have iht := ih hl.of_cons
      by_cases hpb : p b
      · rw [if_pos hpb, List.filter_cons, if_pos hpb, iht]
        by_cases hpa : p a
        · rw [if_pos hpa, if_pos hpa, List.orderedInsert, if_neg hab]
        · rw [if_neg hpa, if_neg hpa]
      · rw [if_neg hpb, List.filter_cons, if_neg hpb, iht]

/-- The first element of a list that is minimal for `r` over the whole
list (hence, for a total transitive `r`: the earliest element attaining
the minimum). -/
def firstMinBy (r : α → α → Prop) [DecidableRel r] (l : List α) : Option α :=
  l.find? (fun a => l.all (fun b => decide (r a b)))

/-- The head of a stable sort is the earliest minimal element. -/
theorem head?_insertionSort (r : α → α → Prop) [DecidableRel r]
    [IsTotal α r] [IsTrans α r] (l : List α) :
    (l.insertionSort r).head? = firstMinBy r l := by
  induction l with
  | nil => rfl
  | cons a t ih =>
    have hra : r a a := (IsTotal.total (r := r) a a).elim id id
    rw [List.insertionSort]
    cases ht : t.insertionSort r with
    | nil =>
      have htn : t = [] := by
        have hlen := List.length_insertionSort r t
        rw [ht] at hlen
        exact List.length_eq_zero.mp hlen.symm
      subst htn
      simp [List.orderedInsert, firstMinBy, List.find?, hra]
    | cons b s =>
      have hb : firstMinBy r t = some b := by rw [← ih, ht]; rfl
      have hbmem : b ∈ t := List.mem_of_find?_eq_some hb
      have hbmin : ∀ c ∈ t, r b c := by
        have hall := List.find?_some hb
        simp only [List.all_eq_true, decide_eq_true_eq] at hall
        exact hall
      rw [List.orderedInsert]
      by_cases hab : r a b
      · rw [if_pos hab]
        have hpa : ((a :: t).all (fun c => decide (r a c))) = true := by
          simp only [List.all_cons, List.all_eq_true, decide_eq_true_eq,
            Bool.and_eq_true, decide_eq_true_iff]
          exact ⟨hra, fun c hc => Trans.trans hab (hbmin c hc)⟩
        rw [firstMinBy, List.find?_cons_of_pos
          (p := fun x => (a :: t).all (fun c => decide (r x c))) _ hpa]
        rfl
      · have hba : r b a := (IsTotal.total (r := r) a b).resolve_left hab
        rw [if_neg hab]
        have hpa : ¬ ((a :: t).all (fun c => decide (r a c))) = true := by
          simp only [List.all_cons, List.all_eq_true, decide_eq_true_eq,
            Bool.and_eq_true, decide_eq_true_iff, not_and, not_forall]
          exact fun _ => ⟨b, hbmem, hab⟩
        rw [firstMinBy, List.find?_cons_of_neg
          (p := fun x => (a :: t).all (fun c => decide (r x c))) _ hpa]
        rw [find?_congr_mem t (p := fun x => (a :: t).all (fun c => decide (r x c)))
          (q := fun x => t.all (fun c => decide (r x c)))]
        · rw [← firstMinBy, hb]
          rfl
        · intro x hx
          cases hx1 : t.all (fun c => decide (r x c)) with
          | true =>
            have hxt : ∀ c ∈ t, r x c := by
              simp only [List.all_eq_true, decide_eq_true_eq] at hx1
              exact hx1
            have hxa : r x a := Trans.trans (hxt b hbmem) hba
            simp [List.all_cons, hxa, hx1]
          | false => simp [List.all_cons, hx1]

/-- A nonempty list has an earliest minimal element. -/
theorem firstMinBy_isSome (r : α → α → Prop) [DecidableRel r]
    [IsTotal α r] [IsTrans α r] (l : List α) (hl : l ≠ []) :
    (firstMinBy r l).isSome = true := by
  rw [← head?_insertionSort]
  cases hs : l.insertionSort r with
  | nil =>
    have hlen := List.length_insertionSort r l
    rw [hs] at hlen
    exact absurd (List.length_eq_zero.mp hlen.symm) hl
  | cons b s => rfl

/-- Keys already seen never reappear in the deduplicated output. -/
theorem dropDuplicatesBy_filter_eq_nil (key : α → String) (l : List α)
    (seen : List String) (k : String) (hk : k ∈ seen) :
    (dropDuplicatesBy key l seen).filter (fun r => decide (key r = k)) = [] := by
  induction l generalizing seen with
  | nil => rfl
  | cons r rs ih =>
    rw [dropDuplicatesBy]
    by_cases h : key r ∈ seen
    · rw [if_pos h]
      exact ih seen hk
    · rw [if_neg h, List.filter_cons, if_neg]
      · exact ih (key r :: seen) (List.mem_cons_of_mem _ hk)
      · simp only [decide_eq_true_eq]
        rintro rfl
        exact h hk

/-- Deduplication keeps, for each fresh key, exactly the first row with
that key. -/
theorem dropDuplicatesBy_filter (key : α → String) (l : List α)
    (seen : List String) (k : String) (hk : k ∉ seen) :
    (dropDuplicatesBy key l seen).filter (fun r => decide (key r = k)) =
      (l.find? (fun r => decide (key r = k))).toList := by
  induction l generalizing seen with
  | nil => rfl
  | cons r rs ih =>
    rw [dropDuplicatesBy]
    by_cases h : key r ∈ seen
    · have hne : ¬ (decide (key r = k) = true) := by
        simp only [decide_eq_true_eq]
        rintro rfl
        exact hk h
      rw [if_pos h, List.find?_cons_of_neg
        (p := fun x => decide (key x = k)) _ hne]
      exact ih seen hk
    · rw [if_neg h, List.filter_cons]
      by_cases he : key r = k
      · rw [if_pos (by simpa using he), List.find?_cons_of_pos
          (p := fun x => decide (key x = k)) _ (by simpa using he)]
        rw [dropDuplicatesBy_filter_eq_nil key rs (key r :: seen) k
          (he ▸ List.mem_cons_self _ _)]
        rfl
      · rw [if_neg (by simpa using he), List.find?_cons_of_neg
          (p := fun x => decide (key x = k)) _ (by simpa using he)]
        exact ih (key r :: seen) (by
          simp only [List.mem_cons, not_or]
          exact ⟨fun e => he e.symm, hk⟩)

/-- Filtering commutes with a stable sort. -/
theorem filter_insertionSort {r : α → α → Prop} [DecidableRel r]
    [IsTotal α r] [IsTrans α r] (p : α → Bool) (l : List α) :
    (l.insertionSort r).filter p = (l.filter p).insertionSort r := by
  induction l with
  | nil => rfl
  | cons a t ih =>
    rw [List.insertionSort,
      filter_orderedInsert p a _ (List.sorted_insertionSort r t), ih,
      List.filter_cons]
    by_cases h : p a
    · rw [if_pos h, if_pos h, List.insertionSort]
    · rw [if_neg h, if_neg h]

/-! ## Lemmas about the per-fraction resolver -/

/-- Dropping the assigned identifiers recovers the sorted rows. -/
theorem assignPepId_map_psm (l : List Psm) (n : Nat) :
    (assignPepId l n).map FracPsm.psm = l := by
  induction l generalizing n with
  | nil => rfl
  | cons r rs ih => rw [assignPepId, List.map_cons, ih]

/-- Rows of the identifier-assigned frame come from the sorted rows. -/
theorem mem_assignPepId (l : List Psm) (n : Nat) (x : FracPsm)
    (h : x ∈ assignPepId l n) : x.psm ∈ l := by
  induction l generalizing n with
  | nil => exact absurd h (List.not_mem_nil x)
  | cons r rs ih =>
    rw [assignPepId] at h
    rcases List.mem_cons.mp h with h1 | h2
    · rw [h1]
      exact List.mem_cons_self r rs
    · exact List.mem_cons_of_mem r (ih (n + 1) h2)

/-- Identifier assignment preserves pairwise ordering of the rows. -/
theorem pairwise_assignPepId {R : Psm → Psm → Prop} (l : List Psm) (n : Nat)
    (h : List.Pairwise R l) :
    List.Pairwise (fun x y : FracPsm => R x.psm y.psm) (assignPepId l n) := by
  induction l generalizing n with
  | nil => exact List.Pairwise.nil
  | cons r rs ih =>
    rw [assignPepId]
    rcases List.pairwise_cons.mp h with ⟨hr, hrs⟩
    exact List.pairwise_cons.mpr
      ⟨fun y hy => hr y.psm (mem_assignPepId rs (n + 1) y hy), ih (n + 1) hrs⟩

/-- Identifier assignment preserves length. -/
theorem length_assignPepId (l : List Psm) (n : Nat) :
    (assignPepId l n).length = l.length := by
  induction l generalizing n with
  | nil => rfl
  | cons r rs ih => rw [assignPepId, List.length_cons, ih, List.length_cons]

/-- The assigned identifier of the row at position `i` is `n + i`. -/
theorem pep_id_assignPepId (l : List Psm) (n i : Nat)
    (hi : i < (assignPepId l n).length) :
    ((assignPepId l n).get ⟨i, hi⟩).pep_id = n + i := by
  induction l generalizing n i with
  | nil => exact absurd hi (by simp [assignPepId])
  | cons r rs ih =>
    cases i with
    | zero => rfl
    | succ j =>
      have hj : j < (assignPepId rs (n + 1)).length := by
        rw [length_assignPepId] at hi ⊢
        simp only [List.length_cons] at hi
        omega
      have hrec := ih (n + 1) j hj
      show ((assignPepId rs (n + 1)).get ⟨j, hj⟩).pep_id = n + (j + 1)
      rw [hrec]
      omega

/-- Unfolding of a successful parametric per-fraction resolution. -/
theorem get_current_with_ok_eq (qsort : List Psm → List Psm)
    (csdf : List Psm) (idx : Int) (out : List FracPsm)
    (h : get_current_fraction_psms_with qsort csdf idx = .ok out) :
    out = assignPepId
      ((dropDuplicatesBy Psm.concat
        (qsort (csdf.filter (fun r => decide (r.file_idx = idx))))
        []).insertionSort scanLE) 0 := by
  unfold get_current_fraction_psms_with at h
  by_cases hc : ((csdf.map Psm.file_idx).contains idx) = true
  · rw [if_pos hc] at h
    exact (Except.ok.inj h).symm
  · rw [if_neg hc] at h
    exact absurd h (by simp)

/-- Unfolding of a successful per-fraction resolution (stable
instantiation). -/
theorem get_current_ok_eq (csdf : List Psm) (idx : Int) (out : List FracPsm)
    (h : get_current_fraction_psms csdf idx = .ok out) :
    out = assignPepId
      ((dropDuplicatesBy Psm.concat
        ((csdf.filter (fun r => decide (r.file_idx = idx))).insertionSort
          qvalueLE) []).insertionSort scanLE) 0 :=
  get_current_with_ok_eq (fun l => l.insertionSort qvalueLE) csdf idx out h

/-- The rows with a given key surviving the parametric resolver are
exactly the first q-sorted row with that key (none when the key is absent
from the fraction); this holds for every sort parameter. -/
theorem get_current_with_key_rows (qsort : List Psm → List Psm)
    (csdf : List Psm) (idx : Int) (out : List FracPsm) (k : String)
    (h : get_current_fraction_psms_with qsort csdf idx = .ok out) :
    (out.map FracPsm.psm).filter (fun r => decide (r.concat = k)) =
      ((qsort (csdf.filter (fun r => decide (r.file_idx = idx)))).find?
        (fun r => decide (r.concat = k))).toList := by
  have he := get_current_with_ok_eq qsort csdf idx out h
  subst he
  rw [assignPepId_map_psm]
  have hperm2 : List.Perm
      (((dropDuplicatesBy Psm.concat
        (qsort (csdf.filter (fun r => decide (r.file_idx = idx))))
        []).insertionSort scanLE).filter (fun r => decide (r.concat = k)))
      ((dropDuplicatesBy Psm.concat
        (qsort (csdf.filter (fun r => decide (r.file_idx = idx))))
        []).filter (fun r => decide (r.concat = k))) :=
    (List.perm_insertionSort scanLE _).filter _
  rw [dropDuplicatesBy_filter Psm.concat _ [] k (List.not_mem_nil k)]
    at hperm2
  cases ho : (qsort (csdf.filter (fun r => decide (r.file_idx = idx)))).find?
      (fun r => decide (r.concat = k)) with
  | none =>
    rw [ho] at hperm2
    exact List.perm_nil.mp (by simpa using hperm2)
  | some x =>
    rw [ho] at hperm2
    exact List.perm_singleton.mp (by simpa using hperm2)

/-- Characterization of the rows surviving per-fraction deduplication:
for every key, the resolver output holds exactly the earliest
lowest-q-value fraction row with that key (or no row, for keys absent
from the fraction). -/
theorem get_current_key_rows (csdf : List Psm) (idx : Int)
    (out : List FracPsm) (k : String)
    (h : get_current_fraction_psms csdf idx = .ok out) :
    (out.map FracPsm.psm).filter (fun r => decide (r.concat = k)) =
      (firstMinBy qvalueLE
        ((csdf.filter (fun r => decide (r.file_idx = idx))).filter
          (fun r => decide (r.concat = k)))).toList := by
  have he := get_current_ok_eq csdf idx out h
  subst he
  rw [assignPepId_map_psm]
  have hperm : List.Perm
      (((dropDuplicatesBy Psm.concat
        ((csdf.filter (fun r => decide (r.file_idx = idx))).insertionSort
          qvalueLE) []).insertionSort scanLE).filter
        (fun r => decide (r.concat = k)))
      ((dropDuplicatesBy Psm.concat
        ((csdf.filter (fun r => decide (r.file_idx = idx))).insertionSort
          qvalueLE) []).filter (fun r => decide (r.concat = k))) :=
    (List.perm_insertionSort scanLE _).filter _
  have hd := dropDuplicatesBy_filter Psm.concat
    ((csdf.filter (fun r => decide (r.file_idx = idx))).insertionSort qvalueLE)
    [] k (List.not_mem_nil k)
  have hf : ((csdf.filter (fun r => decide (r.file_idx = idx))).insertionSort
      qvalueLE).find? (fun r => decide (r.concat = k)) =
      firstMinBy qvalueLE
        ((csdf.filter (fun r => decide (r.file_idx = idx))).filter
          (fun r => decide (r.concat = k))) := by
    rw [find?_eq_head?_filter, filter_insertionSort, head?_insertionSort]
  rw [hd, hf] at hperm
  cases ho : firstMinBy qvalueLE
      ((csdf.filter (fun r => decide (r.file_idx = idx))).filter
        (fun r => decide (r.concat = k))) with
  | none =>
    rw [ho] at hperm
    exact List.perm_nil.mp (by simpa using hperm)
  | some x =>
    rw [ho] at hperm
    exact List.perm_singleton.mp (by simpa using hperm)

/-! ## Lemmas about the confidence filter -/

/-- Membership characterization of `filter_df_by_args`: a row survives
exactly when it was present, passes the strict q-value cutoff whenever
the q-value column exists, and is proteotypic whenever uniqueness is
requested. -/
theorem mem_filter_df_by_args {α : Type} (qval : α → Rat) (prot : α → String)
    (df : DF α) (peptide_q : Rat) (unique_only : Bool) (r : α) :
    r ∈ (filter_df_by_args qval prot df peptide_q unique_only).rows ↔
      r ∈ df.rows ∧ (df.hasQCol = true → qval r < peptide_q) ∧
        (unique_only = true → numAccessions (prot r) = 1) := by
  have hacc : ∀ t : String, countCommas t = 0 ↔ numAccessions t = 1 := by
    intro t
    unfold numAccessions
    omega
  unfold filter_df_by_args
  cases hq : df.hasQCol <;> cases hu : unique_only <;>
    simp [List.mem_filter, hacc, and_assoc] <;>
    exact fun _ => ⟨fun ⟨h1, h2⟩ => ⟨h2, h1⟩, fun ⟨h1, h2⟩ => ⟨h2, h1⟩⟩

/-! ## Lemmas about the filtered-fraction assembly -/

/-- Rows of the strict part: fraction rows that pass the strict q-value
cutoff (and uniqueness when requested), labelled `q_value`. -/
theorem mem_strictPart (frac : List FracPsm) (q : Rat) (u : Bool)
    (r : OutRow) (h : r ∈ strictPart frac q u) :
    r.evidence = "q_value" ∧
      ∃ x ∈ frac, r.psm = x.psm ∧ x.psm.qvalue < q ∧
        (u = true → numAccessions x.psm.protein_id = 1) := by
  unfold strictPart at h
  obtain ⟨x, hx, rfl⟩ := List.mem_map.mp h
  have hm := (mem_filter_df_by_args (fun r : FracPsm => r.psm.qvalue)
    (fun r : FracPsm => r.psm.protein_id) ⟨frac, true⟩ q u x).mp hx
  exact ⟨rfl, x, hm.1, rfl, hm.2.1 rfl, hm.2.2⟩

/-- Rows of the soft part: fraction rows in the half-open rescue band
whose key occurs among the fraction-restricted master candidates,
labelled `soft`. -/
theorem mem_softPart (frac : List FracPsm) (mc : List MasterRow)
    (q sq : Rat) (soft : Bool) (r : OutRow)
    (h : r ∈ softPart frac mc q sq soft) :
    r.evidence = "soft" ∧ q ≤ r.psm.qvalue ∧ r.psm.qvalue < sq ∧
      r.psm.concat ∈ mc.map MasterRow.concat ∧
      ∃ x ∈ frac, r.psm = x.psm := by
  unfold softPart at h
  cases soft with
  | false => exact absurd h (List.not_mem_nil r)
  | true =>
    rw [if_pos rfl] at h
    obtain ⟨x, hx, rfl⟩ := List.mem_map.mp h
    obtain ⟨b, hb, hbx⟩ := List.mem_flatMap.mp hx
    obtain ⟨m, hm, hmb⟩ := List.mem_map.mp hbx
    have hxb : x = b := hmb.symm
    subst hxb
    have hm1 := List.mem_of_mem_filter hm
    have hm2 : m.concat = x.psm.concat := by
      have := List.of_mem_filter hm
      simpa using this
    have hband1 := List.mem_of_mem_filter hb
    have hq1 : q ≤ x.psm.qvalue := by
      have := List.of_mem_filter hband1
      simpa using this
    have hq2 : x.psm.qvalue < sq := by
      have := List.of_mem_filter hb
      simpa using this
    refine ⟨rfl, hq1, hq2, ?_, x, List.mem_of_mem_filter hband1, rfl⟩
    exact List.mem_map.mpr ⟨m, hm1, hm2⟩

/-- Every synthesized MAR row is labelled `match_across_runs`. -/
theorem marSynthesize_evidence (mc : List MasterRow) (cands : List String)
    (cols : List (List (Option Rat))) (fi : Int) (cs : String) (r : OutRow)
    (h : r ∈ marSynthesize mc cands cols fi cs) :
    r.evidence = "match_across_runs" := by
  unfold marSynthesize at h
  obtain ⟨x, _, rfl⟩ := List.mem_map.mp h
  rfl

/-- Rows returned by a successful MAR step are all labelled
`match_across_runs`. -/
theorem marStep_ok_evidence (mdf : List Psm) (mc : List MasterRow)
    (f2 : List OutRow) (idx : Int) (q : Rat) (u : Bool)
    (fm : List (Int × Int) → Int → Rat) (mr : List OutRow)
    (h : marStep mdf mc f2 idx q u fm = .ok mr) :
    ∀ r ∈ mr, r.evidence = "match_across_runs" := by
  cases f2 with
  | nil => exact absurd h (by simp [marStep])
  | cons cr0 rest =>
    rw [marStep] at h
    cases hm : ((mdf.map Psm.sample).dedup.filter
        (fun s => !(decide (s = cr0.psm.sample)))).mapM
        (marPeer mdf idx q u (cr0 :: rest)
          (marCandidates mc (cr0 :: rest)) fm) with
    | error e =>
      rw [hm] at h
      exact absurd h (by simp [Except.map])
    | ok cols =>
      rw [hm] at h
      simp only [Except.map, Except.ok.injEq] at h
      subst h
      intro r hr
      exact marSynthesize_evidence _ _ _ _ _ r hr

/-- Decomposition of a successful `filterCurrentBody` run: the output is
the pre-MAR filtered frame followed by rows labelled
`match_across_runs`. -/
theorem filterCurrentBody_ok_parts (r0 : FracPsm) (frac : List FracPsm)
    (csdf mdf : List Psm) (master : List MasterRow) (sq : Rat)
    (fm : List (Int × Int) → Int → Rat) (q : Rat) (u soft mar : Bool)
    (out : List OutRow)
    (h : filterCurrentBody r0 frac csdf mdf master sq fm q u soft mar
      = .ok out) :
    ∃ marRows,
      out = filteredBeforeMar frac master r0.psm.file_idx q sq u soft
        ++ marRows ∧
      ∀ r ∈ marRows, r.evidence = "match_across_runs" := by
  unfold filterCurrentBody at h
  by_cases hc : ((csdf.map Psm.file_idx).contains r0.psm.file_idx) = true
  · rw [if_pos hc] at h
    cases mar with
    | false =>
      rw [if_neg (by simp)] at h
      refine ⟨[], ?_, by simp⟩
      rw [List.append_nil]
      exact (Except.ok.inj h).symm
    | true =>
      rw [if_pos rfl] at h
      cases hm : marStep mdf (matchCandidatesAt master r0.psm.file_idx)
          (filteredBeforeMar frac master r0.psm.file_idx q sq u soft)
          r0.psm.file_idx q u fm with
      | error e =>
        rw [hm] at h
        exact absurd h (by simp [Except.map])
      | ok mr =>
        rw [hm] at h
        simp only [Except.map, Except.ok.injEq] at h
        exact ⟨mr, h.symm, marStep_ok_evidence _ _ _ _ _ _ _ _ hm⟩
  · rw [if_neg hc] at h
    exact absurd h (by simp)

/-- Decomposition of a successful `filter_current_fraction_psms` run. -/
theorem filter_current_ok_parts (r0 : FracPsm) (rest frac : List FracPsm)
    (csdf mdf : List Psm) (master : List MasterRow) (sq : Rat)
    (fm : List (Int × Int) → Int → Rat) (q : Rat) (u soft mar : Bool)
    (out : List OutRow) (hfrac : frac = r0 :: rest)
    (h : filter_current_fraction_psms frac csdf mdf master sq fm q u soft mar
      = .ok out) :
    ∃ marRows,
      out = filteredBeforeMar frac master r0.psm.file_idx q sq u soft
        ++ marRows ∧
      ∀ r ∈ marRows, r.evidence = "match_across_runs" := by
  subst hfrac
  unfold filter_current_fraction_psms at h
  exact filterCurrentBody_ok_parts r0 _ csdf mdf master sq fm q u soft mar
    out h

/-- Rows of the pre-MAR filtered frame are strict rows or soft rows. -/
theorem mem_filteredBeforeMar (frac : List FracPsm) (master : List MasterRow)
    (idx : Int) (q sq : Rat) (u soft : Bool) (r : OutRow)
    (h : r ∈ filteredBeforeMar frac master idx q sq u soft) :
    r ∈ strictPart frac q u ∨
      r ∈ softPart frac (matchCandidatesAt master idx) q sq soft := by
  unfold filteredBeforeMar at h
  exact List.mem_append.mp h

/-! ## Claim theorems -/

/-- C3: every row labelled `soft` in the filtered fraction output has
`peptide_q <= q-value < soft_threshold_q`, and its key appears among the
master candidates restricted to the current fraction's index (read from
the first fraction row). -/
theorem C3_soft_rescue_band (frac : List FracPsm) (r0 : FracPsm)
    (rest : List FracPsm) (csdf mdf : List Psm) (master : List MasterRow)
    (sq : Rat) (fm : List (Int × Int) → Int → Rat) (q : Rat)
    (u soft mar : Bool) (out : List OutRow) (r : OutRow)
    (hfrac : frac = r0 :: rest)
    (h : filter_current_fraction_psms frac csdf mdf master sq fm q u soft mar
      = .ok out)
    (hr : r ∈ out) (hev : r.evidence = "soft") :
    q ≤ r.psm.qvalue ∧ r.psm.qvalue < sq ∧
      r.psm.concat ∈
        (matchCandidatesAt master r0.psm.file_idx).map MasterRow.concat := by
  obtain ⟨mr, hout, hmr⟩ := filter_current_ok_parts r0 rest frac csdf mdf
    master sq fm q u soft mar out hfrac h
  subst hout
  rcases List.mem_append.mp hr with h1 | h2
  · rcases mem_filteredBeforeMar _ _ _ _ _ _ _ _ h1 with hs | hsoft
    · have hq := (mem_strictPart _ _ _ _ hs).1
      rw [hev] at hq
      exact absurd hq (by decide)
    · have hm := mem_softPart _ _ _ _ _ _ hsoft
      exact ⟨hm.2.1, hm.2.2.1, hm.2.2.2.1⟩
  · have hq := hmr r h2
    rw [hev] at hq
    exact absurd hq (by decide)

/-- C4 (amended): for every q-value sort consistent with what
`sort_values('percolator q-value')` guarantees under the pandas default
sort kind — a permutation of the fraction frame ordered by q-value, the
tie order among equal q-values unspecified — the resolver retains exactly
one row per key present in the fraction, and every retained row with that
key belongs to the key's group and attains the minimal q-value of the
group.  Which of several tied-minimum rows survives is decided by the
sort's tie order (the counterexample exhibits two contract-satisfying
sorts with different survivors); for a fixed sort the outcome is
deterministic across repeated runs, the resolver being a pure function. -/
theorem C4_dedup_lowest_q_any_tie_order (qsort : List Psm → List Psm)
    (hperm : ∀ l, List.Perm (qsort l) l)
    (hsorted : ∀ l, List.Pairwise qvalueLE (qsort l))
    (csdf : List Psm) (idx : Int) (out : List FracPsm) (k : String)
    (h : get_current_fraction_psms_with qsort csdf idx = .ok out) :
    (k ∈ (csdf.filter (fun r => decide (r.file_idx = idx))).map Psm.concat →
      ((out.map FracPsm.psm).filter
        (fun r => decide (r.concat = k))).length = 1) ∧
    ∀ s ∈ (out.map FracPsm.psm).filter (fun r => decide (r.concat = k)),
      s ∈ (csdf.filter (fun r => decide (r.file_idx = idx))).filter
          (fun r => decide (r.concat = k)) ∧
      ∀ y ∈ (csdf.filter (fun r => decide (r.file_idx = idx))).filter
          (fun r => decide (r.concat = k)), s.qvalue ≤ y.qvalue := by
  have hchar := get_current_with_key_rows qsort csdf idx out k h
  constructor
  · intro hk
    rw [hchar]
    obtain ⟨x, hx, hxk⟩ := List.mem_map.mp hk
    have hxq : x ∈ qsort (csdf.filter (fun r => decide (r.file_idx = idx))) :=
      ((hperm _).mem_iff).mpr hx
    cases hf : (qsort (csdf.filter
        (fun r => decide (r.file_idx = idx)))).find?
        (fun r => decide (r.concat = k)) with
    | none =>
      have hnone := List.find?_eq_none.mp hf x hxq
      simp [hxk] at hnone
    | some s => rfl
  · intro s hs
    rw [hchar] at hs
    cases hf : (qsort (csdf.filter
        (fun r => decide (r.file_idx = idx)))).find?
        (fun r => decide (r.concat = k)) with
    | none =>
      rw [hf] at hs
      exact absurd hs (List.not_mem_nil s)
    | some s0 =>
      rw [hf] at hs
      have hss : s = s0 := by simpa using hs
      subst hss
      have hks := List.find?_some hf
      have hmem := List.mem_of_find?_eq_some hf
      have hsfrac : s ∈ csdf.filter (fun r => decide (r.file_idx = idx)) :=
        ((hperm _).mem_iff).mp hmem
      refine ⟨List.mem_filter.mpr ⟨hsfrac, hks⟩, fun y hy => ?_⟩
      have hyfrac := List.mem_of_mem_filter hy
      have hyk : decide (y.concat = k) = true := (List.mem_filter.mp hy).2
      have hymem : y ∈ qsort (csdf.filter
          (fun r => decide (r.file_idx = idx))) :=
        ((hperm _).mem_iff).mpr hyfrac
      rcases find?_rel_of_mem (hsorted _) hf hymem hyk with heq | hle
      · rw [heq]
      · exact hle

/-- C5 (amended): the per-fraction resolver output is ordered by
non-decreasing scan (rows with equal scans are possible, so the order is
not strict), and `pep_id` equals the 0-based positional index. -/
theorem C5_scan_order_and_pep_id (csdf : List Psm) (idx : Int)
    (out : List FracPsm)
    (h : get_current_fraction_psms csdf idx = .ok out) :
    List.Pairwise (fun a b : FracPsm => a.psm.scan ≤ b.psm.scan) out ∧
    ∀ i, (hi : i < out.length) → (out.get ⟨i, hi⟩).pep_id = i := by
  have he := get_current_ok_eq csdf idx out h
  subst he
  constructor
  · exact pairwise_assignPepId _ 0 (List.sorted_insertionSort scanLE _)
  · intro i hi
    have hp := pep_id_assignPepId _ 0 i hi
    rw [hp]
    exact Nat.zero_add i

/-- C6: the confidence filter retains exactly the rows with q-value
strictly below the threshold; frames without the q-value column pass
through unfiltered; with `unique_only` set only rows with exactly one
accession survive. -/
theorem C6_confidence_filter {α : Type} (qval : α → Rat) (prot : α → String)
    (df : DF α) (peptide_q : Rat) (unique_only : Bool) (r : α) :
    r ∈ (filter_df_by_args qval prot df peptide_q unique_only).rows ↔
      r ∈ df.rows ∧ (df.hasQCol = true → qval r < peptide_q) ∧
        (unique_only = true → numAccessions (prot r) = 1) :=
  mem_filter_df_by_args qval prot df peptide_q unique_only r

/-- C8: raising the quorum fraction can only shrink the master-candidate
set: with `m1 <= m2` the candidates at `m2` are a subset of those at
`m1`, and there are no more of them. -/
theorem C8_quorum_monotone (master : List Psm) (n : Nat) (q : Rat)
    (u : Bool) (m1 m2 : Rat) (out1 out2 : List MasterRow) (hm : m1 ≤ m2)
    (h1 : make_master_match_list master n q u m1 = .ok out1)
    (h2 : make_master_match_list master n q u m2 = .ok out2) :
    out2 ⊆ out1 ∧ out2.length ≤ out1.length := by
  unfold make_master_match_list at h1 h2
  by_cases he : master.isEmpty = true
  · rw [if_pos he] at h1
    exact absurd h1 (by simp)
  · rw [if_neg he] at h1 h2
    have e1 := Except.ok.inj h1
    have e2 := Except.ok.inj h2
    have hmul : (n : Rat) * m1 ≤ (n : Rat) * m2 :=
      mul_le_mul_of_nonneg_left hm (Nat.cast_nonneg n)
    have hsub : List.Sublist
        (((masterKeys ((filter_df_by_args Psm.qvalue Psm.protein_id
          ⟨master, true⟩ q u).rows)).map (masterAggRow
            ((filter_df_by_args Psm.qvalue Psm.protein_id
              ⟨master, true⟩ q u).rows))).filter (fun m =>
          decide ((m.num_samples : Rat) ≥ (n : Rat) * m2)))
        (((masterKeys ((filter_df_by_args Psm.qvalue Psm.protein_id
          ⟨master, true⟩ q u).rows)).map (masterAggRow
            ((filter_df_by_args Psm.qvalue Psm.protein_id
              ⟨master, true⟩ q u).rows))).filter (fun m =>
          decide ((m.num_samples : Rat) ≥ (n : Rat) * m1))) := by
      apply List.monotone_filter_right
      intro a ha
      have ha2 := of_decide_eq_true ha
      exact decide_eq_true (le_trans hmul ha2)
    rw [← e1, ← e2]
    exact ⟨hsub.subset, hsub.length_le⟩

/-- C9: with uniqueness filtering on, a key whose surviving deduplicated
row (the earliest lowest-q-value PSM of the fraction) maps to more than
one protein yields no `q_value`-labelled output row, regardless of other
same-key PSMs: deduplication runs before the uniqueness filter. -/
theorem C9_dedup_before_uniqueness (sampleRows : List Psm) (idx : Int)
    (frac : List FracPsm) (r0 : FracPsm) (rest : List FracPsm)
    (csdf mdf : List Psm) (master : List MasterRow) (sq : Rat)
    (fm : List (Int × Int) → Int → Rat) (q : Rat) (soft mar : Bool)
    (out : List OutRow) (k : String) (s0 : Psm)
    (hget : get_current_fraction_psms sampleRows idx = .ok frac)
    (hfrac : frac = r0 :: rest)
    (h : filter_current_fraction_psms frac csdf mdf master sq fm q true
      soft mar = .ok out)
    (hsurv : firstMinBy qvalueLE
      ((sampleRows.filter (fun r => decide (r.file_idx = idx))).filter
        (fun r => decide (r.concat = k))) = some s0)
    (hmulti : numAccessions s0.protein_id ≠ 1) :
    ∀ r ∈ out, r.evidence = "q_value" → r.psm.concat ≠ k := by
  intro r hr hev hk
  obtain ⟨mr, hout, hmr⟩ := filter_current_ok_parts r0 rest frac csdf mdf
    master sq fm q true soft mar out hfrac h
  subst hout
  rcases List.mem_append.mp hr with h1 | h2
  · rcases mem_filteredBeforeMar _ _ _ _ _ _ _ _ h1 with hs | hsoft
    · obtain ⟨_, x, hx, hrx, _, huniq⟩ := mem_strictPart _ _ _ _ hs
      have hchar := get_current_key_rows sampleRows idx frac k hget
      have hxin : x.psm ∈ (frac.map FracPsm.psm).filter
          (fun t => decide (t.concat = k)) := by
        refine List.mem_filter.mpr ⟨List.mem_map.mpr ⟨x, hx, rfl⟩, ?_⟩
        rw [← hrx]
        simpa using hk
      rw [hchar, hsurv] at hxin
      have hxs : x.psm = s0 := by simpa using hxin
      apply hmulti
      rw [← hxs]
      exact huniq rfl
    · have hq := (mem_softPart _ _ _ _ _ _ hsoft).1
      rw [hev] at hq
      exact absurd hq (by decide)
  · have hq := hmr r h2
    rw [hev] at hq
    exact absurd hq (by decide)

/-- C10 (amended): a non-empty filtered frame after the soft-threshold
step (not merely after the strict filter) is the implicit precondition of
the MAR branch: when the strict rows plus soft-rescue rows are empty and
MAR is enabled, reading `curr_frac_filtered_id_df['sample'][0]`
(line 279) raises `KeyError` instead of synthesizing MAR rows. -/
theorem C10_empty_filtered_mar_raises (frac : List FracPsm) (r0 : FracPsm)
    (rest : List FracPsm) (csdf mdf : List Psm) (master : List MasterRow)
    (sq : Rat) (fm : List (Int × Int) → Int → Rat) (q : Rat)
    (u soft : Bool) (hfrac : frac = r0 :: rest)
    (hassert : ((csdf.map Psm.file_idx).contains r0.psm.file_idx) = true)
    (hempty : filteredBeforeMar frac master r0.psm.file_idx q sq u soft
      = []) :
    filter_current_fraction_psms frac csdf mdf master sq fm q u soft true
      = .error "KeyError: 0" := by
  subst hfrac
  rw [show filter_current_fraction_psms (r0 :: rest) csdf mdf master sq fm
      q u soft true
      = filterCurrentBody r0 (r0 :: rest) csdf mdf master sq fm q u soft true
    from rfl]
  unfold filterCurrentBody
  rw [if_pos hassert, if_pos rfl, hempty]
  rfl

/-- C1 (divergence evidence): with peer predictions 100 and 103.5 for the
missing key `PEPTIDE_2`, the synthesized row carries scan 101 — the
`astype(np.int)` truncation of the median 101.75 (line 376) — while
rounding the median to the nearest integer, as the code's own comment
(line 375) and the specification state, gives 102. -/
theorem C1_mar_scan_truncated_not_rounded :
    filter_current_fraction_psms [⟨c1_p1, 0⟩] [c1_p1] c1_master [mcPeptide2]
        (mkRat 5 100) c1_fit (mkRat 1 100) false false true
      = .ok [c1_out_strict, c1_out_mar] ∧
    c1_out_mar.psm.scan = npAstypeInt (listMedian [100, mkRat 207 2]) ∧
    listMedian [100, mkRat 207 2] = mkRat 407 4 ∧
    npAstypeInt (mkRat 407 4) = 101 ∧
    round (mkRat 407 4) = 102 := by
  refine ⟨?_, ?_, ?_, ?_, ?_⟩ <;> with_unfolding_all decide

/-- C2 (divergence evidence): a peer sample (`B`) whose confident set
shares zero keys with the current fraction's filtered set makes
`regr.fit` raise on an empty training set, aborting
`filter_current_fraction_psms` instead of being skipped. -/
theorem C2_zero_overlap_peer_raises :
    filter_current_fraction_psms [⟨c2_p1, 0⟩] [c2_p1] c2_master [mcPeptide2]
        (mkRat 5 100) zeroFit (mkRat 1 100) false false true
      = .error "ValueError: regr.fit with 0 samples for B" := by
  with_unfolding_all decide

/-- C5 (counterexample): a fraction with two distinct keys at the same
scan number resolves to an output that is not strictly ascending by
scan. -/
theorem C5_counterexample :
    get_current_fraction_psms [c5_rd, c5_re] 0 = .ok c5_out ∧
    ¬ List.Pairwise (fun a b : FracPsm => a.psm.scan < b.psm.scan) c5_out := by
  constructor
  · with_unfolding_all decide
  · with_unfolding_all decide

/-- C7 (divergence evidence): a key confidently seen at fraction indices
1 and 2 aggregates to the non-integral `file_idx` 3/2:
`pd.to_numeric(..., downcast='integer')` leaves fractional medians
untouched, so the median fraction index is not cast to an integer. -/
theorem C7_file_idx_median_not_integer :
    make_master_match_list c7_rows 2 (mkRat 1 100) true (mkRat 1 4)
      = .ok [{ concat := "PEPTIDE_2", num_samples := 2,
               file_idx := mkRat 3 2, precursor_mz := 500,
               peptide_mass := 1000 }] ∧
    (mkRat 3 2).den ≠ 1 := by
  constructor
  · with_unfolding_all decide
  · with_unfolding_all decide

/-- C10 (counterexample): with soft thresholding enabled, a fraction
whose strictly-filtered set is empty but whose soft-rescue set is not
runs the MAR branch without error — the claim's precondition must be the
emptiness of the filtered set after soft rescue, not of the
strictly-filtered set. -/
theorem C10_counterexample :
    strictPart [⟨c3_fr1, 0⟩] (mkRat 1 100) false = [] ∧
    filter_current_fraction_psms [⟨c3_fr1, 0⟩] [c3_fr1] [c3_fr1]
        [mcPeptide2] (mkRat 5 100) zeroFit (mkRat 1 100) false true true
      = .ok [c3_out_soft] := by
  constructor
  · with_unfolding_all decide
  · with_unfolding_all decide

/-- C4 (counterexample): the tie clause of the original claim — the
survivor among tied-minimum q-values is the row first in source order —
is not a consequence of the program.  `c4_swapSort` returns a q-ordered
permutation of the fraction frame, which is all the pandas default
(unstable) sort kind guarantees, yet deduplication after it keeps
`c4_rb`, not the source-first tied row `c4_ra` that `firstMinBy`
identifies and that a stable sort would keep. -/
theorem C4_tie_break_counterexample :
    c4_swapSort [c4_ra, c4_rb] = [c4_rb, c4_ra] ∧
    List.Pairwise qvalueLE [c4_rb, c4_ra] ∧
    List.Perm [c4_rb, c4_ra] [c4_ra, c4_rb] ∧
    get_current_fraction_psms_with c4_swapSort [c4_ra, c4_rb] 0
      = .ok [⟨c4_rb, 0⟩] ∧
    firstMinBy qvalueLE
      (([c4_ra, c4_rb].filter (fun r => decide (r.file_idx = 0))).filter
        (fun r => decide (r.concat = "PEPA_2"))) = some c4_ra ∧
    c4_rb ≠ c4_ra := by
  refine ⟨?_, ?_, List.Perm.swap c4_ra c4_rb [], ?_, ?_, ?_⟩ <;>
    with_unfolding_all decide

/-! ## Witnesses -/

/-- Witness for C3 on the concrete soft-rescue scenario. -/
theorem C3_soft_rescue_band_witness :
    mkRat 1 100 ≤ c3_out_soft.psm.qvalue ∧
    c3_out_soft.psm.qvalue < mkRat 5 100 ∧
    c3_out_soft.psm.concat ∈
      (matchCandidatesAt [mcPeptide2]
        (⟨c3_fr1, 0⟩ : FracPsm).psm.file_idx).map MasterRow.concat :=
  C3_soft_rescue_band [⟨c3_fr1, 0⟩] ⟨c3_fr1, 0⟩ [] [c3_fr1] [c3_fr1]
    [mcPeptide2] (mkRat 5 100) zeroFit (mkRat 1 100) false true false
    [c3_out_soft] c3_out_soft rfl (by with_unfolding_all decide)
    (by with_unfolding_all decide) rfl

/-- Witness for C4 (amended), instantiated with the stable insertion
sort — one of the sorts satisfying the pandas contract — on the concrete
tie scenario. -/
theorem C4_dedup_lowest_q_any_tie_order_witness :
    ("PEPA_2" ∈ (c4_rows.filter
        (fun r => decide (r.file_idx = 0))).map Psm.concat →
      ((c4_out.map FracPsm.psm).filter
        (fun r => decide (r.concat = "PEPA_2"))).length = 1) ∧
    ∀ s ∈ (c4_out.map FracPsm.psm).filter
        (fun r => decide (r.concat = "PEPA_2")),
      s ∈ (c4_rows.filter (fun r => decide (r.file_idx = 0))).filter
          (fun r => decide (r.concat = "PEPA_2")) ∧
      ∀ y ∈ (c4_rows.filter (fun r => decide (r.file_idx = 0))).filter
          (fun r => decide (r.concat = "PEPA_2")), s.qvalue ≤ y.qvalue :=
  C4_dedup_lowest_q_any_tie_order (fun l => l.insertionSort qvalueLE)
    (fun l => List.perm_insertionSort qvalueLE l)
    (fun l => List.sorted_insertionSort qvalueLE l)
    c4_rows 0 c4_out "PEPA_2" (by with_unfolding_all decide)

/-- Witness for C5 (amended) on the concrete tie-break scenario. -/
theorem C5_scan_order_and_pep_id_witness :
    List.Pairwise (fun a b : FracPsm => a.psm.scan ≤ b.psm.scan) c4_out ∧
    ∀ i, (hi : i < c4_out.length) → (c4_out.get ⟨i, hi⟩).pep_id = i :=
  C5_scan_order_and_pep_id c4_rows 0 c4_out
    (by with_unfolding_all decide)

/-- Witness for C8 on the concrete two-sample scenario. -/
theorem C8_quorum_monotone_witness :
    c8_out2 ⊆ c8_out1 ∧ c8_out2.length ≤ c8_out1.length :=
  C8_quorum_monotone c8_rows 2 (mkRat 1 100) true (mkRat 1 4) (mkRat 3 4)
    c8_out1 c8_out2 (by with_unfolding_all decide)
    (by with_unfolding_all decide) (by with_unfolding_all decide)

/-- Witness for C9 on the concrete scenario: the single `q_value` output
row is not for key `PEPA_2`, although the second-best `PEPA_2` PSM is
proteotypic. -/
theorem C9_dedup_before_uniqueness_witness :
    c9_row.psm.concat ≠ "PEPA_2" :=
  C9_dedup_before_uniqueness c9_rows 0 c9_frac ⟨c9_w1, 0⟩ [⟨c9_w3, 1⟩]
    c9_rows c9_rows [] (mkRat 5 100) zeroFit (mkRat 1 100) false false
    c9_out "PEPA_2" c9_w1 (by with_unfolding_all decide) rfl
    (by with_unfolding_all decide) (by with_unfolding_all decide)
    (by with_unfolding_all decide) c9_row (by with_unfolding_all decide) rfl

/-- Witness for C10 (amended): with soft thresholding disabled and no
strictly-passing row, the MAR branch raises `KeyError`. -/
theorem C10_empty_filtered_mar_raises_witness :
    filter_current_fraction_psms [⟨c3_fr1, 0⟩] [c3_fr1] [c3_fr1]
        [mcPeptide2] (mkRat 5 100) zeroFit (mkRat 1 100) false false true
      = .error "KeyError: 0" :=
  C10_empty_filtered_mar_raises [⟨c3_fr1, 0⟩] ⟨c3_fr1, 0⟩ [] [c3_fr1]
    [c3_fr1] [mcPeptide2] (mkRat 5 100) zeroFit (mkRat 1 100) false false
    rfl (by with_unfolding_all decide) (by with_unfolding_all decide)

end Riana
